import Mathlib

/-!
# Verification of `SmartChunker` (src/queries/chunker.py)

Shallow embedding of the message-chunking component: token estimation
(`estimate_tokens`), greedy partitioning (`chunk_messages`), rendering
(`format_for_llm`) and the statistics helper (`stats`), together with
proofs of the spec's testable properties.

Modelling notes:
* A Python message dict is embedded as `MessageRecord` with the four keys
  the chunker inspects, each an `Option` (absent key or `None` value both
  become `none`).  A `created_at` value is embedded by the string it
  renders to (`strftime("%Y-%m-%d %H:%M")` for `datetime` values,
  `str(ts)` otherwise); the empty string stands for a falsy timestamp
  value.  Python truthiness of a fetched string field ("absent, `None`,
  or empty string is falsy") is `pyTruthy`.
* Python `str.split()` with no argument splits on runs of whitespace and
  discards empties; `wordCount` counts those words directly over the
  character list.  `pyIsSpace` covers Python's ASCII whitespace.
* `int(w * 1.3)` truncates toward zero; for every word count `w` that a
  real message can reach (far below 2^50, where the double rounding error
  of `w * 1.3` stays below the 0.1 gap to the next integer) the Python
  value equals `13 * w / 10` in natural-number (floor) division, which is
  how it is embedded.
* Python `round(x, 1)` rounds half to even; it is embedded exactly on
  rationals (`pyRound1`), idealising away double representation error.
-/

namespace DiscordChunker

/-- Python's ASCII whitespace characters, as used by `str.split()` and
`str.strip()` (unicode whitespace is not needed by any claim). -/
def pyIsSpace (c : Char) : Bool :=
  c = ' ' || c = '\t' || c = '\n' || c = '\r' || c = '\x0b' || c = '\x0c'

/-- Count the whitespace-delimited words of a character list: the number of
maximal runs of non-whitespace characters.  `inWord` records whether the
previous character was part of a word. -/
def countWordsAux : List Char → Bool → Nat
  | [], _ => 0
  | c :: cs, inWord =>
    if pyIsSpace c then countWordsAux cs false
    else (if inWord then 0 else 1) + countWordsAux cs true

/-- `len(text.split())` in Python: number of whitespace-delimited words. -/
def wordCount (s : String) : Nat :=
  countWordsAux s.data false

/-- `SmartChunker.estimate_tokens`:
`if not text: return 0` then `max(1, int(len(text.split()) * 1.3))`.
Only the empty string is falsy; `int(w * 1.3)` is `13 * w / 10` in floor
division (see the module comment). -/
def estimate_tokens (text : String) : Nat :=
  if text = "" then 0
  else max 1 (13 * wordCount text / 10)

/-- A message dict, restricted to the keys the chunker reads.  Every field
is optional: `none` embeds both an absent key and a `None` value. -/
structure MessageRecord where
  content : Option String
  author : Option String
  current_username : Option String
  created_at : Option String
  deriving DecidableEq, Repr

/-- Python truthiness of a fetched optional string field: `none` and the
empty string are falsy. -/
def pyTruthy : Option String → Option String
  | some s => if s = "" then none else some s
  | none => none

/-- `msg.get("content") or ""`. -/
def contentOf (m : MessageRecord) : String :=
  m.content.getD ""

/-- Estimated tokens of one record's content. -/
def msgTokens (m : MessageRecord) : Nat :=
  estimate_tokens (contentOf m)

/-- `SmartChunker.DEFAULT_MAX_TOKENS`. -/
def DEFAULT_MAX_TOKENS : Nat := 8000

/-- The loop of `chunk_messages`: `currentChunk` and `currentTokens` are the
running chunk and its token total; a finished chunk is emitted in order.
The budget is an `Int` because Python accepts any integer `max_tokens`. -/
def chunkAux (maxTokens : Int) : List MessageRecord → List MessageRecord → Nat →
    List (List MessageRecord)
  | [], currentChunk, _ =>
    if currentChunk = [] then [] else [currentChunk]
  | msg :: rest, currentChunk, currentTokens =>
    let t := msgTokens msg
    if ((currentTokens + t : Int) > maxTokens ∧ currentChunk ≠ []) then
      currentChunk :: chunkAux maxTokens rest [msg] t
    else
      chunkAux maxTokens rest (currentChunk ++ [msg]) (currentTokens + t)

/-- `SmartChunker.chunk_messages`: greedy left-to-right partition of the
messages into token-budget chunks.  Empty input short-circuits to `[]`. -/
def chunk_messages (messages : List MessageRecord) (maxTokens : Int) :
    List (List MessageRecord) :=
  if messages = [] then [] else chunkAux maxTokens messages [] 0

/-- `msg.get("author") or msg.get("current_username") or "unknown"`. -/
def authorOf (m : MessageRecord) : String :=
  match pyTruthy m.author with
  | some a => a
  | none =>
    match pyTruthy m.current_username with
    | some u => u
    | none => "unknown"

/-- `str.strip()`: drop leading and trailing whitespace. -/
def pyStrip (s : String) : String :=
  String.mk (((s.data.dropWhile pyIsSpace).reverse.dropWhile pyIsSpace).reverse)

/-- One iteration of the `format_for_llm` loop: `none` when the record is
skipped (empty stripped content), otherwise the rendered line. -/
def renderLine (includeTimestamps : Bool) (m : MessageRecord) : Option String :=
  let author := authorOf m
  let content := pyStrip (contentOf m)
  if content = "" then none
  else
    match (if includeTimestamps then pyTruthy m.created_at else none) with
    | some ts => some ("[" ++ ts ++ "] " ++ author ++ ": " ++ content)
    | none => some (author ++ ": " ++ content)

/-- `SmartChunker.format_for_llm`: render each kept record to a line and
join with a single newline (`"\n".join(lines)`), no trailing newline. -/
def format_for_llm (messages : List MessageRecord)
    (includeTimestamps : Bool) : String :=
  String.intercalate "\n" (messages.filterMap (renderLine includeTimestamps))

/-- Python `round(q, 1)` on an exact rational: round `10 * q` half to even,
then divide by 10. -/
def pyRound1 (q : ℚ) : ℚ :=
  (if 10 * q - (⌊10 * q⌋ : ℚ) < 1/2 then ((⌊10 * q⌋ : ℤ) : ℚ)
   else if 10 * q - (⌊10 * q⌋ : ℚ) > 1/2 then ((⌊10 * q⌋ + 1 : ℤ) : ℚ)
   else if ⌊10 * q⌋ % 2 = 0 then ((⌊10 * q⌋ : ℤ) : ℚ)
   else ((⌊10 * q⌋ + 1 : ℤ) : ℚ)) / 10

/-- Result record of `SmartChunker.stats`. -/
structure Stats where
  total_messages : Nat
  total_tokens : Nat
  estimated_chunks : Nat
  avg_tokens_per_message : ℚ
  deriving DecidableEq, Repr

/-- `SmartChunker.stats`: counts, token sum, ceiling-divided chunk estimate
`max(1, -(-total_tokens // 8000))` and one-decimal average. -/
def stats (messages : List MessageRecord) : Stats :=
  if messages = [] then ⟨0, 0, 0, 0⟩
  else
    let totalTokens := (messages.map msgTokens).sum
    { total_messages := messages.length
      total_tokens := totalTokens
      estimated_chunks := max 1 ((totalTokens + DEFAULT_MAX_TOKENS - 1) / DEFAULT_MAX_TOKENS)
      avg_tokens_per_message := pyRound1 ((totalTokens : ℚ) / (messages.length : ℚ)) }

/-! ## Spec-side definitions

`chunkRef` renders §4.2's prose algorithm (running chunk, running total,
flush-on-overflow, final flush) as a left fold, to be compared with the
loop embedded from the source.  `format_claimed` renders the renderer
contract exactly as the spec words it (fall back only on an *absent*
author field; timestamp used whenever *present*); `format_spec` is the
amended contract (fall back on an absent or empty field; timestamp used
when present and non-empty). -/

/-- One step of the spec's greedy accumulation: state is
`(output so far, running chunk, running token total)`. -/
def chunkRefStep (maxTokens : Int)
    (st : List (List MessageRecord) × List MessageRecord × Nat)
    (msg : MessageRecord) : List (List MessageRecord) × List MessageRecord × Nat :=
  match st with
  | (out, run, total) =>
    if ((total + msgTokens msg : Int) > maxTokens ∧ run ≠ []) then
      (out ++ [run], [msg], msgTokens msg)
    else
      (out, run ++ [msg], total + msgTokens msg)

/-- The spec's reference greedy algorithm: fold the step over the input,
then flush the final non-empty running chunk. -/
def chunkRef (messages : List MessageRecord) (maxTokens : Int) :
    List (List MessageRecord) :=
  match messages.foldl (chunkRefStep maxTokens) ([], [], 0) with
  | (out, run, _) => if run = [] then out else out ++ [run]

/-- The ceiling-divided chunk estimate named by the spec:
`ceil(total_tokens / 8000)`. -/
def ceilDiv8000 (totalTokens : Nat) : Nat :=
  (totalTokens + DEFAULT_MAX_TOKENS - 1) / DEFAULT_MAX_TOKENS

/-- Renderer line exactly as the claim words it: the author falls back
only when a field is *absent*, and the timestamped form is used whenever
`created_at` is *present*. -/
def renderLineClaimed (includeTimestamps : Bool) (m : MessageRecord) :
    Option String :=
  let author :=
    match m.author with
    | some a => a
    | none =>
      match m.current_username with
      | some u => u
      | none => "unknown"
  let content := pyStrip (contentOf m)
  if content = "" then none
  else
    match (if includeTimestamps then m.created_at else none) with
    | some ts => some ("[" ++ ts ++ "] " ++ author ++ ": " ++ content)
    | none => some (author ++ ": " ++ content)

/-- The renderer contract exactly as the claim words it. -/
def format_claimed (messages : List MessageRecord)
    (includeTimestamps : Bool) : String :=
  String.intercalate "\n" (messages.filterMap (renderLineClaimed includeTimestamps))

/-- First entry of the list that is present and non-empty, else the
default: the amended author-resolution order. -/
def firstNonEmptyStr : List (Option String) → String → String
  | [], dflt => dflt
  | o :: rest, dflt =>
    match o with
    | some s => if s = "" then firstNonEmptyStr rest dflt else s
    | none => firstNonEmptyStr rest dflt

/-- Amended author resolution: display name, then username, each skipped
when absent or empty, else `"unknown"`. -/
def specAuthor (m : MessageRecord) : String :=
  firstNonEmptyStr [m.author, m.current_username] "unknown"

/-- Amended renderer contract, line by line: skip records whose trimmed
content is empty; use the timestamped form when timestamps are requested
and the record's timestamp is present and non-empty. -/
def specLines (includeTimestamps : Bool) : List MessageRecord → List String
  | [] => []
  | m :: rest =>
    let tail := specLines includeTimestamps rest
    let content := pyStrip (contentOf m)
    if content = "" then tail
    else
      match m.created_at with
      | some ts =>
        if includeTimestamps ∧ ts ≠ "" then
          ("[" ++ ts ++ "] " ++ specAuthor m ++ ": " ++ content) :: tail
        else
          (specAuthor m ++ ": " ++ content) :: tail
      | none => (specAuthor m ++ ": " ++ content) :: tail

/-- Amended renderer contract: the spec lines joined by single newlines. -/
def format_spec (messages : List MessageRecord)
    (includeTimestamps : Bool) : String :=
  String.intercalate "\n" (specLines includeTimestamps messages)

/-! ## Concrete records used by witnesses and counterexamples -/

/-- A one-word record: content `"x"`, estimate 1 token. -/
def msgX : MessageRecord := ⟨some "x", none, none, none⟩

/-- A three-word record: content `"a a a"`, estimate 3 tokens. -/
def msgAAA : MessageRecord := ⟨some "a a a", none, none, none⟩

/-- The character list `"a a a  ..."` with `n` words: `n` copies of
`'a'` each followed by a space. -/
def wordChars (n : Nat) : List Char :=
  (List.replicate n ['a', ' ']).flatten

/-- A 3077-word string, whose token estimate is `13 * 3077 / 10 = 4000`. -/
def bigRecContent : String :=
  String.mk (wordChars 3077)

/-- A record whose content is estimated at exactly 4000 tokens. -/
def bigRec : MessageRecord := ⟨some bigRecContent, none, none, none⟩

/-- A record whose author field is present but empty. -/
def mEmptyAuthor : MessageRecord := ⟨some "hi", some "", some "bob", none⟩

/-- A record whose timestamp field is present but empty. -/
def mEmptyTs : MessageRecord := ⟨some "yo", some "alice", none, some ""⟩

/-- A record with empty content: estimated at 0 tokens. -/
def mEmptyContent : MessageRecord := ⟨some "", none, none, none⟩

/-- Same content as `msgC2`, different author and timestamp fields. -/
def msgC1 : MessageRecord := ⟨some "hello there", some "alice", none, none⟩

/-- Same content as `msgC1`, different author and timestamp fields. -/
def msgC2 : MessageRecord :=
  ⟨some "hello there", none, some "bob", some "2024-01-01 00:00"⟩

/-! ## Helper lemmas -/

/-- The chunks emitted by the loop flatten to the running chunk followed
by the unprocessed messages, whatever the token counter holds. -/
theorem chunkAux_flatten (maxTokens : Int) :
    ∀ (msgs cur : List MessageRecord) (tok : Nat),
      (chunkAux maxTokens msgs cur tok).flatten = cur ++ msgs := by
  intro msgs
  induction msgs with
  | nil =>
    intro cur tok
    simp only [chunkAux]
    split <;> simp_all
  | cons m rest ih =>
    intro cur tok
    simp only [chunkAux]
    split
    · simp [ih]
    · simp [ih]

/-- `chunk_messages` flattens back to its input for every budget. -/
theorem chunk_messages_flatten (msgs : List MessageRecord) (maxTokens : Int) :
    (chunk_messages msgs maxTokens).flatten = msgs := by
  unfold chunk_messages
  split <;> simp_all [chunkAux_flatten]

/-- Budget invariant of a single chunk: a multi-record chunk fits the
budget, and a chunk holding an over-budget record is that record alone. -/
def chunkBudgetOK (maxTokens : Int) (c : List MessageRecord) : Prop :=
  (2 ≤ c.length → ((c.map msgTokens).sum : Int) ≤ maxTokens) ∧
  (∀ m ∈ c, maxTokens < (msgTokens m : Int) → c = [m])

/-- A chunk of at most one record satisfies the budget invariant. -/
theorem chunkBudgetOK_singleton (maxTokens : Int) (m : MessageRecord) :
    chunkBudgetOK maxTokens [m] := by
  constructor
  · intro h2
    simp at h2
  · intro x hx _
    simp at hx
    subst hx
    rfl

/-- Every chunk emitted by the loop satisfies the budget invariant,
provided the running chunk does and the counter is its token sum. -/
theorem chunkAux_budget (maxTokens : Int) :
    ∀ (msgs cur : List MessageRecord) (tok : Nat),
      tok = (cur.map msgTokens).sum →
      chunkBudgetOK maxTokens cur →
      ∀ c ∈ chunkAux maxTokens msgs cur tok, chunkBudgetOK maxTokens c := by
  intro msgs
  induction msgs with
  | nil =>
    intro cur tok htok hcur c hc
    simp only [chunkAux] at hc
    split at hc
    · simp at hc
    · simp at hc
      subst hc
      exact hcur
  | cons m rest ih =>
    intro cur tok htok hcur c hc
    simp only [chunkAux] at hc
    split at hc
    case isTrue hcond =>
      rcases List.mem_cons.mp hc with rfl | hc2
      · exact hcur
      · exact ih [m] (msgTokens m) (by simp) (chunkBudgetOK_singleton _ m) c hc2
    case isFalse hcond =>
      refine ih (cur ++ [m]) (tok + msgTokens m) (by simp [htok]) ?_ c hc
      rcases Classical.em (cur = []) with hnil | hne
      · subst hnil
        simpa using chunkBudgetOK_singleton maxTokens m
      · have hle : ((tok + msgTokens m : Int)) ≤ maxTokens := by
          by_contra hgt
          exact hcond ⟨by omega, hne⟩
        constructor
        · intro _
          have : ((cur ++ [m]).map msgTokens).sum = tok + msgTokens m := by
            simp [htok]
          rw [this]
          exact_mod_cast hle
        · intro x hx hbig
          exfalso
          have hxle : msgTokens x ≤ ((cur ++ [m]).map msgTokens).sum :=
            List.single_le_sum (fun a _ => Nat.zero_le a) _
              (List.mem_map_of_mem msgTokens hx)
          have hsum : ((cur ++ [m]).map msgTokens).sum = tok + msgTokens m := by
            simp [htok]
          rw [hsum] at hxle
          have : (msgTokens x : Int) ≤ (tok + msgTokens m : Int) := by
            exact_mod_cast hxle
          omega

/-- Final flush of the spec's fold state. -/
def finishRef (st : List (List MessageRecord) × List MessageRecord × Nat) :
    List (List MessageRecord) :=
  if st.2.1 = [] then st.1 else st.1 ++ [st.2.1]

/-- The spec's fold, started from any state, equals the emitted output so
far followed by the chunks the loop produces from that state. -/
theorem chunkRef_foldl_eq_chunkAux (maxTokens : Int) :
    ∀ (msgs : List MessageRecord) (out : List (List MessageRecord))
      (run : List MessageRecord) (total : Nat),
      finishRef (msgs.foldl (chunkRefStep maxTokens) (out, run, total)) =
      out ++ chunkAux maxTokens msgs run total := by
  intro msgs
  induction msgs with
  | nil =>
    intro out run total
    simp only [List.foldl_nil, chunkAux, finishRef]
    split <;> simp_all
  | cons m rest ih =>
    intro out run total
    simp only [List.foldl_cons, chunkRefStep, chunkAux]
    by_cases hcond : ((total + msgTokens m : Int) > maxTokens ∧ run ≠ [])
    · rw [if_pos hcond, if_pos hcond, ih (out ++ [run]) [m] (msgTokens m)]
      simp
    · rw [if_neg hcond, if_neg hcond]
      exact ih out (run ++ [m]) (total + msgTokens m)

/-- With a negative budget the loop flushes at every record: starting
from a non-empty running chunk it emits that chunk and then singletons. -/
theorem chunkAux_neg_budget (maxTokens : Int) (hneg : maxTokens < 0) :
    ∀ (msgs cur : List MessageRecord) (tok : Nat), cur ≠ [] →
      chunkAux maxTokens msgs cur tok = cur :: msgs.map (fun m => [m]) := by
  intro msgs
  induction msgs with
  | nil =>
    intro cur tok hne
    simp only [chunkAux]
    simp [hne]
  | cons m rest ih =>
    intro cur tok hne
    simp only [chunkAux]
    have hcond : ((tok + msgTokens m : Int) > maxTokens ∧ cur ≠ []) := by
      constructor
      · omega
      · exact hne
    rw [if_pos hcond, ih [m] (msgTokens m) (by simp)]
    simp

/-- All-whitespace character lists contain no word. -/
theorem countWordsAux_all_space :
    ∀ (l : List Char), (∀ c ∈ l, pyIsSpace c) → ∀ b, countWordsAux l b = 0 := by
  intro l
  induction l with
  | nil => intro _ b; rfl
  | cons c cs ih =>
    intro hall b
    have hc : pyIsSpace c := hall c (by simp)
    simp only [countWordsAux, hc, if_pos]
    exact ih (fun x hx => hall x (by simp [hx])) false

/-- `wordChars n` contains exactly `n` words. -/
theorem countWordsAux_wordChars :
    ∀ n : Nat, countWordsAux (wordChars n) false = n := by
  intro n
  induction n with
  | zero => rfl
  | succ k ih =>
    have hstep : wordChars (k + 1) = 'a' :: ' ' :: wordChars k := by
      simp [wordChars, List.replicate_succ]
    rw [hstep]
    have ha : pyIsSpace 'a' = false := by decide
    have hs : pyIsSpace ' ' = true := by decide
    simp [countWordsAux, ha, hs, ih]
    omega

/-- The 3077-word record is estimated at exactly 4000 tokens. -/
theorem msgTokens_bigRec : msgTokens bigRec = 4000 := by
  have hdata : bigRecContent.data = wordChars 3077 := rfl
  have hw : wordCount bigRecContent = 3077 := by
    rw [wordCount, hdata, countWordsAux_wordChars]
  have hgen : ∀ k, wordChars (k + 1) = 'a' :: ' ' :: wordChars k := by
    intro k
    simp [wordChars, List.replicate_succ]
  have hcons : wordChars 3077 = 'a' :: ' ' :: wordChars 3076 := hgen 3076
  have hne : bigRecContent ≠ "" := by
    intro h
    have hd : ('a' :: ' ' :: wordChars 3076 : List Char) = [] := by
      rw [← hcons, ← hdata, h]
    exact List.cons_ne_nil _ _ hd
  show estimate_tokens bigRecContent = 4000
  rw [estimate_tokens, if_neg hne, hw]
  decide

/-- The code's `or`-chain author resolution equals the amended spec's
first-present-non-empty resolution. -/
theorem authorOf_eq_specAuthor (m : MessageRecord) :
    authorOf m = specAuthor m := by
  cases ha : m.author with
  | none =>
    cases hu : m.current_username with
    | none => simp [authorOf, specAuthor, firstNonEmptyStr, pyTruthy, ha, hu]
    | some u =>
      by_cases hemp : u = "" <;>
        simp [authorOf, specAuthor, firstNonEmptyStr, pyTruthy, ha, hu, hemp]
  | some a =>
    by_cases hemp : a = ""
    · cases hu : m.current_username with
      | none =>
        simp [authorOf, specAuthor, firstNonEmptyStr, pyTruthy, ha, hu, hemp]
      | some u =>
        by_cases hemp2 : u = "" <;>
          simp [authorOf, specAuthor, firstNonEmptyStr, pyTruthy, ha, hu, hemp, hemp2]
    · simp [authorOf, specAuthor, firstNonEmptyStr, pyTruthy, ha, hemp]

/-- The code's renderer loop produces exactly the amended spec's lines. -/
theorem filterMap_renderLine_eq_specLines (inc : Bool) :
    ∀ msgs : List MessageRecord,
      msgs.filterMap (renderLine inc) = specLines inc msgs := by
  intro msgs
  induction msgs with
  | nil => rfl
  | cons m rest ih =>
    simp only [List.filterMap_cons, specLines]
    by_cases hc : pyStrip (contentOf m) = ""
    · simp [renderLine, hc, ih]
    · cases hts : m.created_at with
      | none =>
        cases inc <;>
          simp [renderLine, hc, hts, ih, authorOf_eq_specAuthor, pyTruthy]
      | some ts =>
        cases inc with
        | false => simp [renderLine, hc, hts, ih, authorOf_eq_specAuthor]
        | true =>
          by_cases hemp : ts = "" <;>
            simp [renderLine, hc, hts, hemp, ih, authorOf_eq_specAuthor, pyTruthy]

/-- The loop's chunk sizes depend only on the token counts of the
remaining messages and the size of the running chunk. -/
theorem chunkAux_length_eq (maxTokens : Int) :
    ∀ (ms1 ms2 cur1 cur2 : List MessageRecord) (tok : Nat),
      ms1.map msgTokens = ms2.map msgTokens →
      cur1.length = cur2.length →
      (chunkAux maxTokens ms1 cur1 tok).map List.length =
      (chunkAux maxTokens ms2 cur2 tok).map List.length := by
  intro ms1
  induction ms1 with
  | nil =>
    intro ms2 cur1 cur2 tok hmap hlen
    have hms2 : ms2 = [] := by
      cases ms2 with
      | nil => rfl
      | cons _ _ => simp at hmap
    subst hms2
    simp only [chunkAux]
    by_cases h1 : cur1 = []
    · have h2 : cur2 = [] := List.length_eq_zero.mp (by rw [← hlen, h1]; rfl)
      simp [h1, h2]
    · have h2 : cur2 ≠ [] := by
        intro h2
        exact h1 (List.length_eq_zero.mp (by rw [hlen, h2]; rfl))
      simp [h1, h2, hlen]
  | cons m1 rest1 ih =>
    intro ms2 cur1 cur2 tok hmap hlen
    cases ms2 with
    | nil => simp at hmap
    | cons m2 rest2 =>
      have hm : msgTokens m1 = msgTokens m2 := by
        simpa using congrArg (fun l => l.headD 0) hmap
      have hrest : rest1.map msgTokens = rest2.map msgTokens := by
        simpa using congrArg List.tail hmap
      have hcur : (cur1 ≠ []) ↔ (cur2 ≠ []) := by
        constructor <;> intro h hnil <;> apply h <;>
          apply List.length_eq_zero.mp
        · rw [hlen, hnil]; rfl
        · rw [← hlen, hnil]; rfl
      simp only [chunkAux, hm]
      by_cases hcond : ((tok + msgTokens m2 : Int) > maxTokens ∧ cur2 ≠ [])
      · have hcond1 : ((tok + msgTokens m2 : Int) > maxTokens ∧ cur1 ≠ []) :=
          ⟨hcond.1, hcur.mpr hcond.2⟩
        rw [if_pos hcond1, if_pos hcond]
        simp only [List.map_cons, hlen]
        rw [ih rest2 [m1] [m2] (msgTokens m2) hrest rfl]
      · have hcond1 : ¬((tok + msgTokens m2 : Int) > maxTokens ∧ cur1 ≠ []) := by
          intro h
          exact hcond ⟨h.1, hcur.mp h.2⟩
        rw [if_neg hcond1, if_neg hcond]
        exact ih rest2 (cur1 ++ [m1]) (cur2 ++ [m2]) (tok + msgTokens m2)
          hrest (by simp [hlen])

/-- Rounding a whole number to one decimal returns it unchanged. -/
theorem pyRound1_natCast (n : ℕ) : pyRound1 ((n : ℚ)) = n := by
  have hcast : (10 : ℚ) * (n : ℚ) = (((10 * n : ℕ) : ℤ) : ℚ) := by
    push_cast
    ring
  unfold pyRound1
  rw [hcast, Int.floor_intCast]
  rw [sub_self]
  norm_num

/-! ## Claim theorems -/

/-- Claim C1: for every list of message records and every positive
`max_tokens`, concatenating the chunks returned by `chunk_messages` in
order yields exactly the input — every record in exactly one chunk, in
original relative position, nothing added, dropped or reordered. -/
theorem chunk_concatenation_law (msgs : List MessageRecord) (maxTokens : Int)
    (h : 0 < maxTokens) :
    (chunk_messages msgs maxTokens).flatten = msgs :=
  chunk_messages_flatten msgs maxTokens

/-- Witness for C1 at a concrete two-record input with budget 8000. -/
theorem chunk_concatenation_law_witness :
    (0 : Int) < 8000 ∧
    (chunk_messages [msgX, msgAAA] 8000).flatten = [msgX, msgAAA] :=
  ⟨by decide, chunk_concatenation_law [msgX, msgAAA] 8000 (by decide)⟩

/-- Claim C2: with a positive budget, every chunk holding two or more
records has token sum at most `max_tokens`; every record whose own
estimate exceeds `max_tokens` occupies a chunk by itself and is never
dropped (it appears as a singleton chunk). -/
theorem chunk_budget_and_no_split (msgs : List MessageRecord)
    (maxTokens : Int) (h : 0 < maxTokens) :
    (∀ c ∈ chunk_messages msgs maxTokens, 2 ≤ c.length →
      ((c.map msgTokens).sum : Int) ≤ maxTokens) ∧
    (∀ c ∈ chunk_messages msgs maxTokens, ∀ m ∈ c,
      maxTokens < (msgTokens m : Int) → c = [m]) ∧
    (∀ m ∈ msgs, maxTokens < (msgTokens m : Int) →
      [m] ∈ chunk_messages msgs maxTokens) := by
  have hok : ∀ c ∈ chunk_messages msgs maxTokens, chunkBudgetOK maxTokens c := by
    intro c hc
    unfold chunk_messages at hc
    split at hc
    · simp at hc
    · refine chunkAux_budget maxTokens msgs [] 0 rfl ⟨?_, ?_⟩ c hc
      · intro h2
        simp at h2
      · intro x hx
        simp at hx
  refine ⟨fun c hc => (hok c hc).1, fun c hc => (hok c hc).2, ?_⟩
  intro m hm hbig
  have hmem : m ∈ (chunk_messages msgs maxTokens).flatten := by
    rw [chunk_messages_flatten]
    exact hm
  obtain ⟨c, hc, hmc⟩ := List.mem_flatten.mp hmem
  have hceq := (hok c hc).2 m hmc hbig
  rwa [hceq] at hc

/-- Witness for C2: with budget 1, the 3-token record `msgAAA` is kept
as a singleton chunk. -/
theorem chunk_budget_and_no_split_witness :
    (0 : Int) < 1 ∧ [msgAAA] ∈ chunk_messages [msgX, msgAAA] 1 :=
  ⟨by decide,
    (chunk_budget_and_no_split [msgX, msgAAA] 1 (by decide)).2.2 msgAAA
      (by decide) (by decide)⟩

/-- Claim C3: `chunk_messages` equals the spec's greedy left-to-right
reference algorithm (running chunk, running total, flush on overflow,
final flush), and three records each estimated at 4000 tokens with
`max_tokens = 8000` chunk as `[[r1, r2], [r3]]`. -/
theorem chunk_matches_greedy_reference :
    (∀ (msgs : List MessageRecord) (maxTokens : Int),
      chunk_messages msgs maxTokens = chunkRef msgs maxTokens) ∧
    (∀ r1 r2 r3 : MessageRecord,
      msgTokens r1 = 4000 → msgTokens r2 = 4000 → msgTokens r3 = 4000 →
      chunk_messages [r1, r2, r3] 8000 = [[r1, r2], [r3]]) := by
  constructor
  · intro msgs maxTokens
    have href : chunkRef msgs maxTokens =
        finishRef (msgs.foldl (chunkRefStep maxTokens) ([], [], 0)) := rfl
    rw [href, chunkRef_foldl_eq_chunkAux maxTokens msgs [] [] 0]
    unfold chunk_messages
    split
    case isTrue heq => subst heq; rfl
    case isFalse heq => simp
  · intro r1 r2 r3 h1 h2 h3
    norm_num [chunk_messages, chunkAux, h1, h2, h3]
    simp

/-- Witness for C3: three copies of the 4000-token record `bigRec` with
budget 8000 produce exactly the chunks `[[bigRec, bigRec], [bigRec]]`. -/
theorem chunk_matches_greedy_reference_witness :
    msgTokens bigRec = 4000 ∧
    chunk_messages [bigRec, bigRec, bigRec] 8000 = [[bigRec, bigRec], [bigRec]] :=
  ⟨msgTokens_bigRec,
    chunk_matches_greedy_reference.2 bigRec bigRec bigRec
      msgTokens_bigRec msgTokens_bigRec msgTokens_bigRec⟩

/-- Claim C4 counterexample: the code truncates with `int`, it does not
round — on `"hello world"` (2 words, `2 * 1.3 = 2.6`) it returns 2, not
the claimed `max(1, round(2 * 1.3)) = 3`. -/
theorem estimate_tokens_hello_world_counterexample :
    estimate_tokens "hello world" = 2 ∧ estimate_tokens "hello world" ≠ 3 := by
  decide

/-- Claim C4 (amended): for every string with word count `w ≥ 1`,
`estimate_tokens` returns `max(1, floor(w * 1.3))`, i.e.
`max 1 (13 * w / 10)`; in particular `"hello world"` gives 2. -/
theorem estimate_tokens_formula :
    (∀ s : String, 1 ≤ wordCount s →
      estimate_tokens s = max 1 (13 * wordCount s / 10)) ∧
    estimate_tokens "hello world" = 2 := by
  constructor
  · intro s hs
    rw [estimate_tokens, if_neg]
    intro hemp
    rw [hemp] at hs
    have h0 : wordCount "" = 0 := by decide
    omega
  · decide

/-- Witness for the amended C4 at `"hello world"`. -/
theorem estimate_tokens_formula_witness :
    1 ≤ wordCount "hello world" ∧
    estimate_tokens "hello world" = max 1 (13 * wordCount "hello world" / 10) :=
  ⟨by decide, estimate_tokens_formula.1 "hello world" (by decide)⟩

/-- Claim C5 counterexample: a whitespace-only non-empty string is
estimated at 1 token, not 0 — only the empty string returns 0, because
`if not text` is false for `" "` and `max(1, int(0 * 1.3)) = 1`. -/
theorem estimate_tokens_whitespace_counterexample :
    (∀ c ∈ (" " : String).data, pyIsSpace c) ∧
    estimate_tokens " " = 1 ∧ estimate_tokens " " ≠ 0 := by
  decide

/-- Claim C5 (amended): on input that is empty or whitespace-only,
`estimate_tokens` returns 0 for the empty string and 1 for a non-empty
whitespace-only string. -/
theorem estimate_tokens_whitespace (s : String)
    (h : ∀ c ∈ s.data, pyIsSpace c) :
    estimate_tokens s = if s = "" then 0 else 1 := by
  by_cases hemp : s = ""
  · subst hemp
    rfl
  · rw [if_neg hemp]
    unfold estimate_tokens
    rw [if_neg hemp]
    have h0 : wordCount s = 0 := countWordsAux_all_space s.data h false
    rw [h0]
    decide

/-- Witness for the amended C5 at the one-space string. -/
theorem estimate_tokens_whitespace_witness :
    (∀ c ∈ (" " : String).data, pyIsSpace c) ∧
    estimate_tokens " " = if (" " : String) = "" then 0 else 1 :=
  ⟨by decide, estimate_tokens_whitespace " " (by decide)⟩

/-- Claim C6 counterexample: Python truthiness, not key absence, drives
the renderer's fallbacks.  A record with a present-but-empty `author`
renders with the `current_username` fallback, and a present-but-empty
`created_at` falls back to the untimed line; the claim as stated
(`format_claimed`, fallback only on absence, timestamp whenever present)
predicts a different string on the same input. -/
theorem format_truthiness_counterexample :
    format_for_llm [mEmptyAuthor, mEmptyTs] true = "bob: hi\nalice: yo" ∧
    format_claimed [mEmptyAuthor, mEmptyTs] true = ": hi\n[] alice: yo" ∧
    format_for_llm [mEmptyAuthor, mEmptyTs] true ≠
      format_claimed [mEmptyAuthor, mEmptyTs] true := by
  decide

/-- Claim C6 (amended): `format_for_llm` returns the rendered lines
joined by single newlines with no trailing newline, one line per record
whose trimmed content is non-empty; the author is the display-name field,
falling back to the username field when the display name is absent *or
empty*, and to `"unknown"` when both are; a line is timestamped exactly
when timestamps are requested and that record's timestamp is present
*and non-empty*, with no placeholder otherwise. -/
theorem format_for_llm_matches_spec (msgs : List MessageRecord) (inc : Bool) :
    format_for_llm msgs inc = format_spec msgs inc := by
  unfold format_for_llm format_spec
  rw [filterMap_renderLine_eq_specLines]

/-- Claim C7 counterexample: on one record with empty content (0 tokens)
the code returns `estimated_chunks = max(1, ceil(0 / 8000)) = 1`, while
the claimed formula — `ceil(total_tokens / 8000)`, minimum 1 only "if
any tokens" — gives 0. -/
theorem stats_zero_token_counterexample :
    (stats [mEmptyContent]).total_tokens = 0 ∧
    ceilDiv8000 (stats [mEmptyContent]).total_tokens = 0 ∧
    (stats [mEmptyContent]).estimated_chunks = 1 := by
  decide

/-- Claim C7 (amended): for every non-empty record list, `stats` returns
the record count, the token sum, `max(1, ceil(total_tokens / 8000))` —
which equals the plain ceiling whenever there is at least one token, and
is 1 (not 0) when there are none — and the one-decimal average; in
particular 4 records of 4000 tokens each give `estimated_chunks = 2` and
`avg_tokens_per_message = 4000.0`. -/
theorem stats_formulas :
    (∀ msgs : List MessageRecord, msgs ≠ [] →
      (stats msgs).total_messages = msgs.length ∧
      (stats msgs).total_tokens = (msgs.map msgTokens).sum ∧
      (stats msgs).estimated_chunks =
        max 1 (ceilDiv8000 ((msgs.map msgTokens).sum)) ∧
      (1 ≤ (msgs.map msgTokens).sum →
        (stats msgs).estimated_chunks = ceilDiv8000 ((msgs.map msgTokens).sum)) ∧
      (stats msgs).avg_tokens_per_message =
        pyRound1 (((msgs.map msgTokens).sum : ℚ) / (msgs.length : ℚ))) ∧
    (∀ r : MessageRecord, msgTokens r = 4000 →
      (stats [r, r, r, r]).total_messages = 4 ∧
      (stats [r, r, r, r]).total_tokens = 16000 ∧
      (stats [r, r, r, r]).estimated_chunks = 2 ∧
      (stats [r, r, r, r]).avg_tokens_per_message = 4000) := by
  constructor
  · intro msgs hne
    unfold stats
    rw [if_neg hne]
    refine ⟨rfl, rfl, rfl, ?_, rfl⟩
    intro h1
    show max 1 ((((msgs.map msgTokens).sum + DEFAULT_MAX_TOKENS - 1)) / DEFAULT_MAX_TOKENS) = _
    have hge : 1 ≤ ((msgs.map msgTokens).sum + DEFAULT_MAX_TOKENS - 1) / DEFAULT_MAX_TOKENS := by
      unfold DEFAULT_MAX_TOKENS
      omega
    unfold ceilDiv8000
    exact Nat.max_eq_right hge
  · intro r hr
    have hsum : ([r, r, r, r].map msgTokens).sum = 16000 := by
      simp [hr]
    unfold stats
    rw [if_neg (List.cons_ne_nil r [r, r, r])]
    refine ⟨rfl, hsum, ?_, ?_⟩
    · show max 1 ((([r, r, r, r].map msgTokens).sum + DEFAULT_MAX_TOKENS - 1) / DEFAULT_MAX_TOKENS) = 2
      rw [hsum]
      decide
    · show pyRound1 ((([r, r, r, r].map msgTokens).sum : ℚ) / (([r, r, r, r] : List MessageRecord).length : ℚ)) = 4000
      rw [hsum]
      have hq : ((16000 : ℕ) : ℚ) / (([r, r, r, r] : List MessageRecord).length : ℚ) = ((4000 : ℕ) : ℚ) := by
        norm_num
      rw [hq, pyRound1_natCast]
      norm_num

/-- Witness for the amended C7: a one-record list and four copies of the
4000-token record `bigRec`. -/
theorem stats_formulas_witness :
    (stats [msgX]).total_messages = 1 ∧
    msgTokens bigRec = 4000 ∧
    (stats [bigRec, bigRec, bigRec, bigRec]).estimated_chunks = 2 :=
  ⟨(stats_formulas.1 [msgX] (by decide)).1, msgTokens_bigRec,
    (stats_formulas.2 bigRec msgTokens_bigRec).2.2.1⟩

/-- Claim C8 counterexample: `chunk_messages` performs no validation of
`max_tokens` — with a zero or negative budget it does not fail fast, it
silently returns a normal chunking. -/
theorem chunk_invalid_budget_counterexample :
    chunk_messages [msgX] 0 = [[msgX]] ∧
    chunk_messages [msgX, msgAAA] (-5) = [[msgX], [msgAAA]] := by
  decide

/-- Claim C8 (amended): a zero or negative `max_tokens` is accepted
silently: the call returns a chunking that still concatenates to the
input, and with a strictly negative budget every record is emitted as
its own chunk. -/
theorem chunk_invalid_budget_behavior (msgs : List MessageRecord)
    (maxTokens : Int) (h : maxTokens ≤ 0) :
    (chunk_messages msgs maxTokens).flatten = msgs ∧
    (maxTokens < 0 →
      chunk_messages msgs maxTokens = msgs.map (fun m => [m])) := by
  refine ⟨chunk_messages_flatten msgs maxTokens, ?_⟩
  intro hneg
  cases msgs with
  | nil => rfl
  | cons m rest =>
    unfold chunk_messages
    rw [if_neg (List.cons_ne_nil m rest)]
    simp only [chunkAux]
    split
    case isTrue hcond => exact absurd hcond.2 (by simp)
    case isFalse hcond =>
      rw [chunkAux_neg_budget maxTokens hneg rest ([] ++ [m]) (0 + msgTokens m)
        (by simp)]
      simp

/-- Witness for the amended C8 at budget `-1`. -/
theorem chunk_invalid_budget_behavior_witness :
    (-1 : Int) ≤ 0 ∧ chunk_messages [msgX, msgAAA] (-1) = [[msgX], [msgAAA]] :=
  ⟨by decide,
    (chunk_invalid_budget_behavior [msgX, msgAAA] (-1) (by decide)).2 (by decide)⟩

/-- Claim C9: every operation returns its empty result on empty input —
`chunk_messages [] n = []` for positive `n` (not a single empty chunk),
`format_for_llm [] = ""`, and `stats []` is all-zero. -/
theorem empty_input_all_empty (n : Int) (h : 0 < n) :
    chunk_messages [] n = [] ∧
    (∀ b : Bool, format_for_llm [] b = "") ∧
    stats [] = ⟨0, 0, 0, 0⟩ := by
  refine ⟨rfl, ?_, rfl⟩
  intro b
  rfl

/-- Witness for C9 at the default budget. -/
theorem empty_input_all_empty_witness :
    (0 : Int) < 8000 ∧ chunk_messages [] 8000 = [] :=
  ⟨by decide, (empty_input_all_empty 8000 (by decide)).1⟩

/-- Claim C10: chunk boundaries depend only on message contents — two
lists whose records have pairwise equal `content` fields are cut at the
same positions by `chunk_messages` with the same budget (chunk-for-chunk
equal lengths); no other field influences the cut. -/
theorem chunk_boundaries_content_only
    (ms1 ms2 : List MessageRecord) (maxTokens : Int)
    (h : ms1.map MessageRecord.content = ms2.map MessageRecord.content) :
    (chunk_messages ms1 maxTokens).map List.length =
    (chunk_messages ms2 maxTokens).map List.length := by
  have htok : ms1.map msgTokens = ms2.map msgTokens := by
    have h1 : ms1.map msgTokens =
        (ms1.map MessageRecord.content).map (fun o => estimate_tokens (o.getD "")) := by
      rw [List.map_map]
      rfl
    have h2 : ms2.map msgTokens =
        (ms2.map MessageRecord.content).map (fun o => estimate_tokens (o.getD "")) := by
      rw [List.map_map]
      rfl
    rw [h1, h2, h]
  unfold chunk_messages
  by_cases hnil : ms1 = []
  · have hnil2 : ms2 = [] := by
      cases ms2 with
      | nil => rfl
      | cons _ _ =>
        subst hnil
        simp at h
    rw [if_pos hnil, if_pos hnil2]
  · have hnil2 : ms2 ≠ [] := by
      intro h2
      subst h2
      cases ms1 with
      | nil => exact hnil rfl
      | cons _ _ => simp at h
    rw [if_neg hnil, if_neg hnil2]
    exact chunkAux_length_eq maxTokens ms1 ms2 [] [] 0 htok rfl

/-- Witness for C10: equal contents, different authors and timestamps. -/
theorem chunk_boundaries_content_only_witness :
    [msgC1].map MessageRecord.content = [msgC2].map MessageRecord.content ∧
    (chunk_messages [msgC1] 5).map List.length =
      (chunk_messages [msgC2] 5).map List.length :=
  ⟨by decide, chunk_boundaries_content_only [msgC1] [msgC2] 5 (by decide)⟩

end DiscordChunker
